import Mathlib

set_option maxRecDepth 8000

namespace ThroatQL

/-!
Shallow embedding of the throatql query resolvers (src/auth.rs, src/post.rs,
src/comment.rs, src/sub.rs, src/user.rs, src/lib.rs).

Database rows are modelled as explicit `...Row` structures carrying the raw
column values (enumerated codes as `Option Int`, timestamps as opaque
`Option Int`); decoding a row into a domain entity follows the `match`
expressions of the batch loaders.  A store is a list of rows in the order the
database streams them.  `HashMap` results of the `dataloader` crate are
modelled as association lists with one entry per key; insertion follows the
source (`collect::<HashMap>` = last insert wins, `entry(..).or_insert_with` =
keep the existing entry); the model's iteration order is the insertion order,
one admissible order of the real hash map (whose order is arbitrary).
-/

/-- Delete-status codes decoded by the post and comment loaders (post.rs `DeleteStatus`). -/
inductive DeleteStatus where
  | not
  | user
  | mod
  | admin
deriving DecidableEq

/-- Post-type codes decoded by the post loader (post.rs `PostType`). -/
inductive PostType where
  | text
  | link
  | poll
deriving DecidableEq

/-- Moderator power level (auth.rs `Level`). -/
inductive Level where
  | owner
  | mod
  | janitor
deriving DecidableEq

/-- Role of a logged-in principal (auth.rs `Role`). -/
inductive Role where
  | admin
  | mod (sub : String) (level : Level)
deriving DecidableEq

/-- Per-request principal (auth.rs `UserState`). -/
inductive UserState where
  | anonymous
  | loggedIn (name : String) (id : String) (roles : List Role)
deriving DecidableEq

/-- auth.rs `UserState::can_view_deleted`. -/
def UserState.can_view_deleted : UserState → String → String → Bool
  | UserState.anonymous, _, _ => false
  | UserState.loggedIn _ id roles, sub_id, author_id =>
    if id = author_id then
      true
    else
      roles.any (fun role =>
        match role with
        | Role.admin => true
        | Role.mod sub _ => decide (sub = sub_id))

/-- auth.rs `UserState::private_user_data`. -/
def UserState.private_user_data : UserState → String → Except String Unit
  | UserState.anonymous, _ => Except.error ("Not Authorized")
  | UserState.loggedIn _ id roles, check_id =>
    if id = check_id then Except.ok ()
    else if Role.admin ∈ roles then Except.ok ()
    else Except.error ("Not Authorized")

/-- Two's-complement wrap of an integer into the i32 range (Rust `as i32` on a usize). -/
def wrap32 (n : Int) : Int := (n + 2 ^ 31) % 2 ^ 32 - 2 ^ 31

/-- Reinterpretation of an i32 value as a 64-bit usize (Rust `limit as usize`):
nonnegative values unchanged, negative ones become huge. -/
def i32AsUsize (n : Int) : Nat := (n % 2 ^ 64).toNat

/-- Decoded post entity (post.rs `Post`). -/
structure Post where
  pid : Int
  down_votes : Int
  up_votes : Int
  content : Option String
  deleted : DeleteStatus
  link : Option String
  nsfw : Bool
  posted : Option Int
  edited : Option Int
  ptype : PostType
  comments : List String
  sid : Option String
  thumbnail : Option String
  title : Option String
  uid : Option String
  flair : Option String
deriving DecidableEq

/-- Raw `sub_post` row (with the correlated comment / vote aggregates) as
streamed by the queries in post.rs. -/
structure PostRow where
  pid : Int
  content : Option String
  deleted : Option Int
  link : Option String
  nsfw : Option Bool
  posted : Option Int
  edited : Option Int
  ptype : Option Int
  sid : Option String
  thumbnail : Option String
  title : Option String
  uid : Option String
  flair : Option String
  comments : Option (List String)
  up_votes : Option Int
  down_votes : Option Int
deriving DecidableEq

/-- The `ptype` match of post.rs (both in `get_related_posts` and `PostLoader::load`). -/
def decodePostType (pid : Int) : Option Int → Except String PostType
  | some 0 => Except.ok PostType.text
  | some 1 => Except.ok PostType.link
  | some 3 => Except.ok PostType.poll
  | _ => Except.error ("Unknown Post Type! " ++ toString pid)

/-- The `deleted` match of post.rs (both in `get_related_posts` and `PostLoader::load`). -/
def decodeDeleteStatus (pid : Int) : Option Int → Except String DeleteStatus
  | some 1 => Except.ok DeleteStatus.user
  | some 2 => Except.ok DeleteStatus.mod
  | some 3 => Except.ok DeleteStatus.admin
  | some 0 => Except.ok DeleteStatus.not
  | none => Except.ok DeleteStatus.not
  | _ => Except.error ("Unknown Delete Type! " ++ toString pid)

/-- Assembly of a `Post` from a raw row (post.rs); the `ptype` decode runs
before the `deleted` decode, as in the Rust struct literal. -/
def decodePost (r : PostRow) : Except String Post := do
  let ptype ← decodePostType r.pid r.ptype
  let deleted ← decodeDeleteStatus r.pid r.deleted
  pure {
    pid := r.pid
    down_votes := r.down_votes.getD 0
    up_votes := r.up_votes.getD 0
    content := r.content
    deleted := deleted
    link := r.link
    nsfw := r.nsfw.getD false
    posted := r.posted
    edited := r.edited
    ptype := ptype
    comments := r.comments.getD []
    sid := r.sid
    thumbnail := r.thumbnail
    title := r.title
    uid := r.uid
    flair := r.flair }

/-- Decoded comment entity (comment.rs `Comment`). -/
structure Comment where
  cid : String
  content : Option String
  last_edit : Option Int
  parent_cid : Option String
  children : List String
  pid : Option Int
  score : Option Int
  up_votes : Int
  down_votes : Int
  status : DeleteStatus
  time : Option Int
  uid : Option String
deriving DecidableEq

/-- Raw `sub_post_comment` row (with the child aggregate) as streamed by
`CommentLoader::load`. -/
structure CommentRow where
  cid : String
  content : Option String
  lastedit : Option Int
  parentcid : Option String
  pid : Option Int
  score : Option Int
  upvotes : Int
  downvotes : Int
  status : Option Int
  time : Option Int
  uid : Option String
  children : Option (List String)
deriving DecidableEq

/-- The `status` match of comment.rs `CommentLoader::load`. -/
def decodeCommentStatus (cid : String) : Option Int → Except String DeleteStatus
  | some 1 => Except.ok DeleteStatus.user
  | some 2 => Except.ok DeleteStatus.mod
  | some 3 => Except.ok DeleteStatus.admin
  | some 0 => Except.ok DeleteStatus.not
  | none => Except.ok DeleteStatus.not
  | _ => Except.error ("Unknown Delete Status - " ++ cid)

/-- Assembly of a `Comment` from a raw row (comment.rs `CommentLoader::load`). -/
def decodeComment (r : CommentRow) : Except String Comment := do
  let status ← decodeCommentStatus r.cid r.status
  pure {
    cid := r.cid
    content := r.content
    last_edit := r.lastedit
    parent_cid := r.parentcid
    children := r.children.getD []
    pid := r.pid
    score := r.score
    up_votes := r.upvotes
    down_votes := r.downvotes
    status := status
    time := r.time
    uid := r.uid }

/-- Community entity (sub.rs `Sub`); `query_as!` maps rows to it directly. -/
structure Sub where
  sid : String
  name : Option String
  nsfw : Bool
  sidebar : String
  title : Option String
  creation : Int
deriving DecidableEq

/-- Password-hash scheme codes (user.rs `Crypto`). -/
inductive Crypto where
  | bcrypt
  | keycloak
deriving DecidableEq

/-- User status codes (user.rs `UserStatus`). -/
inductive UserStatus where
  | ok
  | deleted
  | siteBan
deriving DecidableEq

/-- Decoded user entity (user.rs `User`). -/
structure User where
  uid : String
  crypto : Crypto
  joindate : Option Int
  name : Option String
  email : Option String
  password : Option String
  score : Int
  given : Int
  status : UserStatus
  resets : Int
deriving DecidableEq

/-- lib.rs `Edge<T>`. -/
structure Edge (α : Type) where
  node : α
  cursor : String
deriving DecidableEq

/-- lib.rs `PageInfo`. -/
structure PageInfo where
  has_next_page : Bool
  end_cursor : String
deriving DecidableEq

/-- lib.rs `Page<T>`. -/
structure Page (α : Type) where
  total_count : Int
  edges : List (Edge α)
  page_info : PageInfo
deriving DecidableEq

/-- Per-key loader result (`Result<V, Arc<FieldError>>` in lib.rs `GLoader`). -/
abbrev LoadResult (α : Type) := Except String α

/-- First binding of a key in an association list (model of `HashMap` lookup). -/
def lookupA {K V : Type} [DecidableEq K] : List (K × V) → K → Option V
  | [], _ => none
  | kv :: rest, k => if kv.1 = k then some kv.2 else lookupA rest k

/-- `HashMap::insert`: overwrite the binding if the key is present, else append. -/
def insertA {K V : Type} [DecidableEq K] : List (K × V) → K → V → List (K × V)
  | [], k, v => [(k, v)]
  | kv :: rest, k, v => if kv.1 = k then (k, v) :: rest else kv :: insertA rest k v

/-- `HashMap::entry(k).or_insert_with(v)`: keep an existing binding, else append. -/
def orInsertA {K V : Type} [DecidableEq K] (m : List (K × V)) (k : K) (v : V) :
    List (K × V) :=
  match lookupA m k with
  | some _ => m
  | none => m ++ [(k, v)]

/-- Common shape of the batch loaders (post.rs `PostLoader::load`, comment.rs
`CommentLoader::load`): fetch the rows whose key is in the requested set
(SQL `key = ANY($1)`), decode each row, drop rows that fail to decode
(`filter_map`), collect the survivors into a map keyed by the decoded entity's
key, then fill every requested key still missing with a per-key error
(`entry(..).or_insert_with`). -/
def batchLoad {K R E : Type} [DecidableEq K]
    (dec : R → Except String E) (keyR : R → K) (keyE : E → K) (nf : K → String)
    (store : List R) (keys : List K) : List (K × LoadResult E) :=
  let fetched := store.filter (fun r => decide (keyR r ∈ keys))
  let decoded := fetched.filterMap (fun r => (dec r).toOption)
  let m := decoded.foldl (fun acc e => insertA acc (keyE e) (Except.ok e)) []
  keys.foldl (fun acc k => orInsertA acc k (Except.error (nf k))) m

/-- The per-key outcome a batch load assigns to a requested key: the last
decodable row bearing that key, if any, else the loader's not-found error. -/
def resolveOne {K R E : Type} [DecidableEq K]
    (dec : R → Except String E) (keyR : R → K) (nf : K → String)
    (store : List R) (j : K) : LoadResult E :=
  match ((store.filter (fun r => decide (keyR r = j))).filterMap
      (fun r => (dec r).toOption)).getLast? with
  | some e => Except.ok e
  | none => Except.error (nf j)

/-- post.rs `PostLoader::load`: `Err(Arc::new(format!("Post not found {}", id)))`. -/
def postNotFoundMsg (id : Int) : String := "Post not found " ++ toString id

/-- comment.rs `CommentLoader::load`: `Err(Arc::new(format!("Could not find {}", key)))`. -/
def commentNotFoundMsg (k : String) : String := "Could not find " ++ k

/-- post.rs `PostLoader::load` (batch function of the post loader). -/
def postBatchLoad (store : List PostRow) (ids : List Int) :
    List (Int × LoadResult Post) :=
  batchLoad decodePost PostRow.pid Post.pid postNotFoundMsg store ids

/-- Per-key outcome of the post loader. -/
def postResolveOne (store : List PostRow) (j : Int) : LoadResult Post :=
  resolveOne decodePost PostRow.pid postNotFoundMsg store j

/-- comment.rs `CommentLoader::load` (batch function of the comment loader). -/
def commentBatchLoad (store : List CommentRow) (keys : List String) :
    List (String × LoadResult Comment) :=
  batchLoad decodeComment CommentRow.cid Comment.cid commentNotFoundMsg store keys

/-- `dataloader::cached::Loader::load_many` on the comment loader with a fresh
request-scoped cache: the batch function runs over the distinct requested keys
and the caller receives the key-indexed `HashMap` it produced.  Requesting a
key twice therefore yields a single entry.  (The loader is the external
`dataloader` crate; its `HashMap` return type is pinned down in src by the
`GLoader` alias of lib.rs and by the call sites, which consume the result as
key/value pairs — `comment.0` / `comment.1` in post.rs, `.values()` in sub.rs.) -/
def commentLoadMany (store : List CommentRow) (keys : List String) :
    List (String × LoadResult Comment) :=
  commentBatchLoad store keys

/-- post.rs `Post::content`: redact the body of a soft-deleted post unless the
viewer may view deleted content in the post's sub. -/
def Post.content_resolver (p : Post) (viewer : UserState) : Option String :=
  if p.deleted = DeleteStatus.not
      ∨ viewer.can_view_deleted (p.sid.getD ("")) (p.uid.getD ("")) = true then
    p.content
  else
    none

/-- post.rs `Post::title`: returned unconditionally. -/
def Post.title_resolver (p : Post) : Option String := p.title

/-- comment.rs `Comment::content`: returned unconditionally. -/
def Comment.content_resolver (c : Comment) : Option String := c.content

/-- Outcome of running a field resolver; `crashes` models a Rust panic. -/
inductive ResolveOutcome (α : Type) where
  | ok (val : α)
  | fieldError (msg : String)
  | crashes
deriving DecidableEq

/-- comment.rs `Comment::parent`: the body is `unimplemented!()`, which panics
unconditionally. -/
def Comment.parent_resolver (_c : Comment) : ResolveOutcome Comment :=
  ResolveOutcome.crashes

/-- user.rs `User::email`: gated by `private_user_data`. -/
def User.email_resolver (u : User) (viewer : UserState) :
    Except String (Option String) :=
  (viewer.private_user_data u.uid).map (fun _ => u.email)

/-- user.rs `User::resets`: gated by `private_user_data`. -/
def User.resets_resolver (u : User) (viewer : UserState) : Except String Int :=
  (viewer.private_user_data u.uid).map (fun _ => u.resets)

/-- user.rs `User::crypto`: gated by `private_user_data`. -/
def User.crypto_resolver (u : User) (viewer : UserState) : Except String Crypto :=
  (viewer.private_user_data u.uid).map (fun _ => u.crypto)

/-- The candidate window taken by post.rs `Post::comments` and comment.rs
`Comment::children`: `skip_while(|cid| (after != "") && (cid != &&after))`
followed by `take(limit as usize)`. -/
def commentsWindow (candidates : List String) (after : String) (limit : Int) :
    List String :=
  (candidates.dropWhile (fun cid => decide (after ≠ "") && decide (cid ≠ after))).take
    (i32AsUsize limit)

/-- Shared body of post.rs `Post::comments` and comment.rs `Comment::children`
(the two resolvers are textually identical): default the limit to 25 and the
cursor to the empty string, take the window, `load_many` it, and build the page
from the returned map's entries. -/
def commentPageOn (candidates : List String) (store : List CommentRow)
    (limit : Option Int) (after : Option String) : Page (LoadResult Comment) :=
  let limitV := limit.getD 25
  let afterV := after.getD ("")
  let page := commentsWindow candidates afterV limitV
  let comments := commentLoadMany store page
  { total_count := wrap32 (Int.ofNat candidates.length)
    page_info := {
      has_next_page := decide (wrap32 (Int.ofNat page.length) = limitV)
      end_cursor := page.getLast?.getD ("") }
    edges := comments.map (fun kv => { node := kv.2, cursor := kv.1 }) }

/-- post.rs `Post::comments`. -/
def Post.commentsPage (p : Post) (store : List CommentRow)
    (limit : Option Int) (after : Option String) : Page (LoadResult Comment) :=
  commentPageOn p.comments store limit after

/-- comment.rs `Comment::children`. -/
def Comment.childrenPage (c : Comment) (store : List CommentRow)
    (limit : Option Int) (after : Option String) : Page (LoadResult Comment) :=
  commentPageOn c.children store limit after

/-- Lexicographic (code-point) order on character lists: the text comparison
used by both the SQL `>` on names and Rust's `Ord` on strings. -/
def charListLt : List Char → List Char → Bool
  | [], [] => false
  | [], _ :: _ => true
  | _ :: _, [] => false
  | a :: as, b :: bs =>
    if a.val < b.val then true
    else if b.val < a.val then false
    else charListLt as bs

/-- Lexicographic order on strings (via their character data). -/
def strLtB (a b : String) : Bool := charListLt a.data b.data

/-- The `WHERE name > $1` predicate of sub.rs `get_subs`; a NULL name never
passes the SQL comparison. -/
def subNameGt (after : String) (s : Sub) : Bool :=
  match s.name with
  | some n => strLtB after n
  | none => false

/-- Rust `str::parse::<i64>`: optional single sign followed by at least one
decimal digit; anything else fails (i64 overflow is not modelled). -/
def parseDigitsAux : List Char → Nat → Option Nat
  | [], acc => some acc
  | c :: cs, acc =>
    if 48 ≤ c.toNat ∧ c.toNat ≤ 57 then parseDigitsAux cs (acc * 10 + (c.toNat - 48))
    else none

/-- Rust `str::parse::<i64>` on a string (see `parseDigitsAux`). -/
def parseIntRust (s : String) : Option Int :=
  match s.data with
  | [] => none
  | c :: cs =>
    if c = '-' then
      match cs with
      | [] => none
      | _ => (parseDigitsAux cs 0).map (fun n => -(n : Int))
    else if c = '+' then
      match cs with
      | [] => none
      | _ => (parseDigitsAux cs 0).map (fun n => (n : Int))
    else (parseDigitsAux (c :: cs) 0).map (fun n => (n : Int))

/-- sub.rs `get_subs`: default count 50, cursor is the sub's display name,
`has_next_page` is `end_cursor != ""`.  The store list is in the database's
stream order (the query has no ORDER BY); `total_count` is the full table
count. -/
def getSubs (store : List Sub) (count : Option Int) (after : Option String) :
    Page Sub :=
  let countV := count.getD 50
  let afterV := after.getD ("")
  let edges := ((store.filter (subNameGt afterV)).take countV.toNat).map
    (fun s => ({ node := s, cursor := s.name.getD ("") } : Edge Sub))
  let end_cursor := ((edges.getLast?).map Edge.cursor).getD ("")
  { total_count := wrap32 (Int.ofNat store.length)
    edges := edges
    page_info := { has_next_page := decide (end_cursor ≠ ""), end_cursor := end_cursor } }

/-- The edge stream of post.rs `get_related_posts`: the matching rows (already
ordered by `posted`) are windowed by SQL `LIMIT count OFFSET after`, then each
row is decoded and labelled with its page-local `enumerate()` index as cursor;
`collect::<Result<Vec<_>, _>>()?` stops at the first decode failure. -/
def getRelatedPostsEdges (rows : List PostRow) (countV : Int) (afterV : Int) :
    Except String (List (Edge Post)) :=
  ((rows.drop afterV.toNat).take countV.toNat).enum.mapM
    (fun ir => (decodePost ir.2).map (fun p => ({ node := p, cursor := toString ir.1 } : Edge Post)))

/-- post.rs `get_related_posts` (also the body of `get_home_posts` and of
`Sub::posts` / `User::posts`): default count 25, `after` parsed as an integer
(unparseable ⇒ 0) and consumed as the SQL OFFSET; `has_next_page` is
`end_cursor != ""` and `total_count` counts all matching rows. -/
def getRelatedPostsPage (rows : List PostRow) (count : Option Int)
    (after : Option String) : Except String (Page Post) := do
  let countV := count.getD 25
  let afterV : Int := (after.map (fun v => (parseIntRust v).getD 0)).getD 0
  let edges ← getRelatedPostsEdges rows countV afterV
  let end_cursor := ((edges.getLast?).map Edge.cursor).getD ("")
  pure {
    total_count := wrap32 (Int.ofNat rows.length)
    edges := edges
    page_info := { has_next_page := decide (end_cursor ≠ ""), end_cursor := end_cursor } }

/-- Whether an `Except` result is a success. -/
def isOkE {α : Type} : Except String α → Bool
  | Except.ok _ => true
  | Except.error _ => false

/-- Whether the role list contains a moderator role (of any level) for the
given community. -/
def isModOf (roles : List Role) (sub_id : String) : Bool :=
  roles.any (fun role =>
    match role with
    | Role.admin => false
    | Role.mod sub _ => decide (sub = sub_id))

/-- First-biased choice on options (proof plumbing for map lookups). -/
def ofirst {V : Type} : Option V → Option V → Option V
  | some v, _ => some v
  | none, p => p

/-- A decodable post row: text post, not deleted, everything else NULL. -/
def postRowOk (i : Int) : PostRow :=
  { pid := i, content := none, deleted := some 0, link := none, nsfw := none,
    posted := none, edited := none, ptype := some 0, sid := none, thumbnail := none,
    title := none, uid := none, flair := none, comments := none, up_votes := none,
    down_votes := none }

/-- A post row carrying the unknown delete-status code 9. -/
def postRowBadDelete (i : Int) : PostRow :=
  { postRowOk i with deleted := some 9 }

/-- Five post rows of which the third has an unrecognized delete-status code. -/
def postStore5 : List PostRow :=
  [postRowOk 1, postRowOk 2, postRowBadDelete 3, postRowOk 4, postRowOk 5]

/-- A community row named "x". -/
def subX : Sub :=
  { sid := "s1", name := some ("x"), nsfw := false, sidebar := "", title := none,
    creation := 0 }

/-- A user-deleted post with a body, a title, an author and a community. -/
def postDeleted : Post :=
  { pid := 1, down_votes := 0, up_votes := 0, content := some ("body"),
    deleted := DeleteStatus.user, link := none, nsfw := false, posted := none,
    edited := none, ptype := PostType.text, comments := [], sid := some ("s1"),
    thumbnail := none, title := some ("T"), uid := some ("alice"), flair := none }

/-- A user-deleted comment that still carries its content. -/
def commentDeleted : Comment :=
  { cid := "c1", content := some ("secret"), last_edit := none,
    parent_cid := some ("c0"), children := [], pid := none, score := none,
    up_votes := 0, down_votes := 0, status := DeleteStatus.user, time := none,
    uid := some ("alice") }

/-- A concrete user record. -/
def userW : User :=
  { uid := "u1", crypto := Crypto.keycloak, joindate := none, name := some ("Alice"),
    email := some ("alice@example.com"), password := none, score := 0, given := 0,
    status := UserStatus.ok, resets := 3 }

/-! ## Association-list lemmas (model of the loaders' `HashMap` plumbing) -/

theorem lookupA_append {K V : Type} [DecidableEq K] (m₁ m₂ : List (K × V)) (k : K) :
    lookupA (m₁ ++ m₂) k = ofirst (lookupA m₁ k) (lookupA m₂ k) := by
  induction m₁ with
  | nil => simp [lookupA, ofirst]
  | cons kv rest ih =>
    by_cases h : kv.1 = k
    · simp [lookupA, h, ofirst]
    · simp [lookupA, h, ih]

theorem lookupA_insertA {K V : Type} [DecidableEq K] (m : List (K × V)) (k k' : K) (v : V) :
    lookupA (insertA m k v) k' = if k = k' then some v else lookupA m k' := by
  induction m with
  | nil => simp [insertA, lookupA]
  | cons kv rest ih =>
    by_cases h : kv.1 = k
    · by_cases h2 : k = k'
      · simp [insertA, lookupA, h, h2]
      · simp [insertA, lookupA, h, h2]
    · by_cases h3 : kv.1 = k'
      · have hkk : ¬ k = k' := fun he => h (h3.trans he.symm)
        have hkk2 : ¬ k' = k := fun he => hkk he.symm
        simp [insertA, lookupA, h, h3, hkk, hkk2]
      · simp [insertA, lookupA, h, h3, ih]

theorem lookupA_orInsertA {K V : Type} [DecidableEq K] (m : List (K × V)) (k k' : K) (v : V) :
    lookupA (orInsertA m k v) k' =
      ofirst (lookupA m k') (if k = k' then some v else none) := by
  unfold orInsertA
  cases hm : lookupA m k with
  | some w =>
    cases hk : lookupA m k' with
    | some w2 => simp [ofirst, hk]
    | none =>
      have hkk : ¬ k = k' := by
        intro he
        rw [he] at hm
        rw [hm] at hk
        cases hk
      simp [ofirst, hk, hkk]
  | none =>
    rw [lookupA_append]
    cases hk : lookupA m k' with
    | some w2 => simp [ofirst, hk]
    | none => simp [ofirst, hk, lookupA]

theorem lookupA_foldl_orInsertA {K V : Type} [DecidableEq K] (f : K → V) (ids : List K) :
    ∀ (m : List (K × V)) (k : K),
      lookupA (ids.foldl (fun acc id => orInsertA acc id (f id)) m) k
        = ofirst (lookupA m k) (if k ∈ ids then some (f k) else none) := by
  induction ids with
  | nil =>
    intro m k
    cases h : lookupA m k <;> simp [ofirst, h]
  | cons id rest ih =>
    intro m k
    rw [List.foldl_cons, ih, lookupA_orInsertA]
    by_cases hk : id = k
    · subst hk
      cases h : lookupA m id <;> simp [ofirst, h, List.mem_cons]
    · have hk2 : ¬ k = id := fun he => hk he.symm
      cases h : lookupA m k <;> simp [ofirst, h, List.mem_cons, hk, hk2]

theorem getLast?_cons_eq {α : Type} (a : α) (l : List α) :
    (a :: l).getLast? = ofirst l.getLast? (some a) := by
  induction l generalizing a with
  | nil => simp [ofirst]
  | cons b bs ih =>
    rw [List.getLast?_cons_cons, ih b]
    cases h : bs.getLast? <;> simp [ofirst]

theorem mem_of_getLast?_eq {α : Type} :
    ∀ {l : List α} {a : α}, l.getLast? = some a → a ∈ l := by
  intro l
  induction l with
  | nil => intro a h; cases h
  | cons b bs ih =>
    intro a h
    rw [getLast?_cons_eq] at h
    cases hb : bs.getLast? with
    | some c =>
      rw [hb] at h
      simp [ofirst] at h
      exact h ▸ List.mem_cons_of_mem _ (ih hb)
    | none =>
      rw [hb] at h
      simp [ofirst] at h
      exact h ▸ List.mem_cons_self _ _

theorem lookupA_foldl_insertA {K V A : Type} [DecidableEq K]
    (key : A → K) (val : A → V) (xs : List A) :
    ∀ (m : List (K × V)) (k : K),
      lookupA (xs.foldl (fun acc a => insertA acc (key a) (val a)) m) k
        = ofirst (((xs.filter (fun a => decide (key a = k))).getLast?).map val)
            (lookupA m k) := by
  induction xs with
  | nil =>
    intro m k
    simp [ofirst]
  | cons a rest ih =>
    intro m k
    rw [List.foldl_cons, ih, lookupA_insertA]
    by_cases h : key a = k
    · have hfc : (a :: rest).filter (fun a => decide (key a = k))
          = a :: rest.filter (fun a => decide (key a = k)) := by
        simp [List.filter_cons, h]
      rw [hfc, getLast?_cons_eq]
      cases hr : (rest.filter (fun a => decide (key a = k))).getLast? <;>
        simp [ofirst, h, hr]
    · have hfc : (a :: rest).filter (fun a => decide (key a = k))
          = rest.filter (fun a => decide (key a = k)) := by
        simp [List.filter_cons, h]
      rw [hfc]
      simp [h]

theorem lookupA_isSome_iff {K V : Type} [DecidableEq K] (m : List (K × V)) (k : K) :
    (lookupA m k).isSome = true ↔ k ∈ m.map Prod.fst := by
  induction m with
  | nil => simp [lookupA]
  | cons kv rest ih =>
    rw [List.map_cons, List.mem_cons]
    by_cases h : kv.1 = k
    · subst h
      simp [lookupA]
    · have h2 : ¬ k = kv.1 := fun he => h he.symm
      simp [lookupA, h, h2, ih]

theorem mem_map_fst_insertA {K V : Type} [DecidableEq K] (m : List (K × V)) (k k' : K) (v : V) :
    k' ∈ (insertA m k v).map Prod.fst ↔ k' ∈ m.map Prod.fst ∨ k' = k := by
  induction m with
  | nil => simp [insertA]
  | cons kv rest ih =>
    by_cases h : kv.1 = k
    · subst h
      simp [insertA, List.mem_cons]
      tauto
    · simp [insertA, h, List.mem_cons, ih]
      tauto

theorem nodup_map_fst_insertA {K V : Type} [DecidableEq K] (m : List (K × V)) (k : K) (v : V)
    (h : (m.map Prod.fst).Nodup) : ((insertA m k v).map Prod.fst).Nodup := by
  induction m with
  | nil => simp [insertA]
  | cons kv rest ih =>
    by_cases hk : kv.1 = k
    · subst hk
      simpa [insertA] using h
    · rw [List.map_cons, List.nodup_cons] at h
      have h2 := ih h.2
      rw [show insertA (kv :: rest) k v = kv :: insertA rest k v by simp [insertA, hk]]
      rw [List.map_cons, List.nodup_cons]
      refine ⟨?_, h2⟩
      rw [mem_map_fst_insertA]
      rintro (hmem | he)
      · exact h.1 hmem
      · exact hk he

theorem nodup_map_fst_orInsertA {K V : Type} [DecidableEq K] (m : List (K × V)) (k : K) (v : V)
    (h : (m.map Prod.fst).Nodup) : ((orInsertA m k v).map Prod.fst).Nodup := by
  unfold orInsertA
  cases hm : lookupA m k with
  | some w => exact h
  | none =>
    have hnm : k ∉ m.map Prod.fst := by
      intro hk
      rw [← lookupA_isSome_iff, hm] at hk
      cases hk
    simp [List.nodup_append, h, hnm]

theorem nodup_foldl_insertA {K V A : Type} [DecidableEq K] (key : A → K) (val : A → V)
    (xs : List A) :
    ∀ (m : List (K × V)), (m.map Prod.fst).Nodup →
      ((xs.foldl (fun acc a => insertA acc (key a) (val a)) m).map Prod.fst).Nodup := by
  induction xs with
  | nil => intro m h; exact h
  | cons a rest ih =>
    intro m h
    rw [List.foldl_cons]
    exact ih _ (nodup_map_fst_insertA _ _ _ h)

theorem nodup_foldl_orInsertA {K V : Type} [DecidableEq K] (f : K → V) (ids : List K) :
    ∀ (m : List (K × V)), (m.map Prod.fst).Nodup →
      ((ids.foldl (fun acc id => orInsertA acc id (f id)) m).map Prod.fst).Nodup := by
  induction ids with
  | nil => intro m h; exact h
  | cons id rest ih =>
    intro m h
    rw [List.foldl_cons]
    exact ih _ (nodup_map_fst_orInsertA _ _ _ h)

/-! ## Batch-loader characterization -/

theorem decodePost_pid (r : PostRow) (p : Post) (h : decodePost r = Except.ok p) :
    p.pid = r.pid := by
  unfold decodePost at h
  cases h1 : decodePostType r.pid r.ptype with
  | error e =>
    rw [h1] at h
    cases h
  | ok pt =>
    cases h2 : decodeDeleteStatus r.pid r.deleted with
    | error e =>
      rw [h1, h2] at h
      cases h
    | ok d =>
      rw [h1, h2] at h
      simp only [bind, Except.bind, pure, Except.pure, Except.ok.injEq] at h
      rw [← h]

theorem decodeComment_cid (r : CommentRow) (c : Comment) (h : decodeComment r = Except.ok c) :
    c.cid = r.cid := by
  unfold decodeComment at h
  cases h1 : decodeCommentStatus r.cid r.status with
  | error e =>
    rw [h1] at h
    cases h
  | ok st =>
    rw [h1] at h
    simp only [bind, Except.bind, pure, Except.pure, Except.ok.injEq] at h
    rw [← h]

theorem toOption_ok {E : Type} (e : E) :
    (Except.ok e : Except String E).toOption = some e := rfl

theorem toOption_error {E : Type} (msg : String) :
    (Except.error msg : Except String E).toOption = (none : Option E) := rfl

theorem decoded_filter_swap {K R E : Type} [DecidableEq K]
    (dec : R → Except String E) (keyR : R → K) (keyE : E → K)
    (hpres : ∀ r e, dec r = Except.ok e → keyE e = keyR r) (rows : List R) (j : K) :
    (rows.filterMap (fun r => (dec r).toOption)).filter (fun e => decide (keyE e = j))
      = (rows.filter (fun r => decide (keyR r = j))).filterMap (fun r => (dec r).toOption) := by
  induction rows with
  | nil => rfl
  | cons r rest ih =>
    cases hd : dec r with
    | ok e =>
      have he : keyE e = keyR r := hpres r e hd
      by_cases hj : keyR r = j <;>
        simp [List.filterMap_cons, List.filter_cons, hd, toOption_ok, he, hj, ih]
    | error msg =>
      by_cases hj : keyR r = j <;>
        simp [List.filterMap_cons, List.filter_cons, hd, toOption_error, hj, ih]

theorem filter_mem_filter_key {K R : Type} [DecidableEq K] (keyR : R → K)
    (store : List R) (ids : List K) (j : K) (hj : j ∈ ids) :
    (store.filter (fun r => decide (keyR r ∈ ids))).filter (fun r => decide (keyR r = j))
      = store.filter (fun r => decide (keyR r = j)) := by
  induction store with
  | nil => rfl
  | cons r rest ih =>
    by_cases hjr : keyR r = j
    · have hmem : keyR r ∈ ids := hjr ▸ hj
      simp [List.filter_cons, hjr, hmem, hj, ih]
    · by_cases hmem : keyR r ∈ ids <;> simp [List.filter_cons, hjr, hmem, ih]

theorem filter_not_mem_filter_key {K R : Type} [DecidableEq K] (keyR : R → K)
    (store : List R) (ids : List K) (k : K) (hk : k ∉ ids) :
    (store.filter (fun r => decide (keyR r ∈ ids))).filter (fun r => decide (keyR r = k))
      = [] := by
  induction store with
  | nil => rfl
  | cons r rest ih =>
    by_cases hmem : keyR r ∈ ids
    · have hne : ¬ keyR r = k := fun he => hk (he ▸ hmem)
      simp [List.filter_cons, hmem, hne, ih]
    · simp [List.filter_cons, hmem, ih]

theorem batchLoad_lookup {K R E : Type} [DecidableEq K]
    (dec : R → Except String E) (keyR : R → K) (keyE : E → K) (nf : K → String)
    (hpres : ∀ r e, dec r = Except.ok e → keyE e = keyR r)
    (store : List R) (keys : List K) (j : K) (hj : j ∈ keys) :
    lookupA (batchLoad dec keyR keyE nf store keys) j
      = some (resolveOne dec keyR nf store j) := by
  unfold batchLoad resolveOne
  rw [lookupA_foldl_orInsertA, lookupA_foldl_insertA,
    decoded_filter_swap dec keyR keyE hpres, filter_mem_filter_key keyR store keys j hj]
  cases hl : ((store.filter (fun r => decide (keyR r = j))).filterMap
      (fun r => (dec r).toOption)).getLast? with
  | some e => simp [ofirst, lookupA, hj, hl]
  | none => simp [ofirst, lookupA, hj, hl]

theorem batchLoad_keys_mem {K R E : Type} [DecidableEq K]
    (dec : R → Except String E) (keyR : R → K) (keyE : E → K) (nf : K → String)
    (hpres : ∀ r e, dec r = Except.ok e → keyE e = keyR r)
    (store : List R) (keys : List K) (k : K) :
    k ∈ (batchLoad dec keyR keyE nf store keys).map Prod.fst ↔ k ∈ keys := by
  rw [← lookupA_isSome_iff]
  unfold batchLoad
  rw [lookupA_foldl_orInsertA, lookupA_foldl_insertA,
    decoded_filter_swap dec keyR keyE hpres]
  by_cases hk : k ∈ keys
  · cases hl : ((store.filter (fun r => decide (keyR r ∈ keys))).filter
        (fun r => decide (keyR r = k))).filterMap (fun r => (dec r).toOption) |>.getLast? with
    | some e => simp [ofirst, lookupA, hk, hl]
    | none => simp [ofirst, lookupA, hk, hl]
  · rw [filter_not_mem_filter_key keyR store keys k hk]
    simp [ofirst, lookupA, hk]

theorem batchLoad_keys_nodup {K R E : Type} [DecidableEq K]
    (dec : R → Except String E) (keyR : R → K) (keyE : E → K) (nf : K → String)
    (store : List R) (keys : List K) :
    ((batchLoad dec keyR keyE nf store keys).map Prod.fst).Nodup := by
  unfold batchLoad
  exact nodup_foldl_orInsertA _ _ _ (nodup_foldl_insertA _ _ _ _ (by simp))

/-! ## Authorization helper lemmas -/

theorem any_role_eq (roles : List Role) (sub_id : String) :
    (roles.any (fun role =>
        match role with
        | Role.admin => true
        | Role.mod sub _ => decide (sub = sub_id)))
      = (decide (Role.admin ∈ roles) || isModOf roles sub_id) := by
  induction roles with
  | nil => rfl
  | cons r rest ih =>
    cases r with
    | admin => simp [List.any_cons, List.mem_cons, isModOf]
    | mod s lvl =>
      have hmem : (Role.admin ∈ Role.mod s lvl :: rest) ↔ (Role.admin ∈ rest) := by
        simp [List.mem_cons]
      rw [List.any_cons, ih]
      have hiso : isModOf (Role.mod s lvl :: rest) sub_id
          = (decide (s = sub_id) || isModOf rest sub_id) := rfl
      rw [hiso]
      simp only [hmem]
      cases hd : decide (s = sub_id) <;> cases ha : decide (Role.admin ∈ rest) <;>
        cases hm : isModOf rest sub_id <;> simp

theorem can_view_deleted_loggedIn_eq (name id sub_id author_id : String) (roles : List Role) :
    UserState.can_view_deleted (UserState.loggedIn name id roles) sub_id author_id
      = (decide (id = author_id) || (decide (Role.admin ∈ roles) || isModOf roles sub_id)) := by
  by_cases h : id = author_id
  · simp [UserState.can_view_deleted, h]
  · simp only [UserState.can_view_deleted, h, if_false, if_neg h]
    rw [any_role_eq]
    simp [h]

theorem except_bind_ok {α β : Type} (a : α) (f : α → Except String β) :
    ((Except.ok a : Except String α) >>= f) = f a := rfl

theorem except_bind_error {α β : Type} (msg : String) (f : α → Except String β) :
    ((Except.error msg : Except String α) >>= f) = Except.error msg := rfl

/-! ## Claim theorems -/

/-- Claim C1, counterexample: `load_many` does not return one result per
requested key in request order.  A post whose candidate window is the
duplicate-carrying key list `["a", "a"]` yields a comments page with a single
edge (the loader's map collapses duplicate keys), not the two ordered edges
the claim requires. -/
theorem load_many_duplicates_collapse :
    ((commentPageOn ["a", "a"] [] none none).edges.map (fun e => e.cursor)) = ["a"]
    ∧ (commentPageOn ["a", "a"] [] none none).edges.length
        ≠ (["a", "a"] : List String).length := by
  exact ⟨by decide, by decide⟩

/-- Claim C1, amended: `load_many` returns a key-indexed map containing exactly
one entry per distinct requested key — every requested key is present and no
key appears twice — but the entries are in map-iteration order, not request
order, and duplicate requested keys collapse into one entry. -/
theorem load_many_one_result_per_distinct_key (store : List CommentRow) (keys : List String) :
    (∀ k, k ∈ (commentLoadMany store keys).map Prod.fst ↔ k ∈ keys)
    ∧ ((commentLoadMany store keys).map Prod.fst).Nodup := by
  constructor
  · intro k
    exact batchLoad_keys_mem decodeComment CommentRow.cid Comment.cid commentNotFoundMsg
      decodeComment_cid store keys k
  · exact batchLoad_keys_nodup decodeComment CommentRow.cid Comment.cid commentNotFoundMsg
      store keys

/-- Witness for the amended claim C1 at a concrete input: the map returned for
keys `["a", "b", "a"]` against the empty store has key set `{"a", "b"}` with no
duplicates. -/
theorem load_many_one_result_per_distinct_key_witness :
    (("a" : String) ∈ (commentLoadMany [] ["a", "b", "a"]).map Prod.fst
        ↔ ("a" : String) ∈ (["a", "b", "a"] : List String))
    ∧ ((commentLoadMany [] ["a", "b", "a"]).map Prod.fst).Nodup :=
  ⟨(load_many_one_result_per_distinct_key [] ["a", "b", "a"]).1 ("a"),
   (load_many_one_result_per_distinct_key [] ["a", "b", "a"]).2⟩

/-- Claim C2: the in-memory pagination window evaluated at the claim's own
example.  With candidates `["a","b","c","d","e"]`, cursor `"b"` and limit 2 the
code's `skip_while(|cid| (after != "") && (cid != &&after))` stops *at* the
element equal to the cursor, so the window is `["b","c"]` — the cursor element
is included again — and not the `["c","d"]` the claim states. -/
theorem comments_window_includes_cursor :
    commentsWindow ["a", "b", "c", "d", "e"] ("b") 2 = ["b", "c"]
    ∧ commentsWindow ["a", "b", "c", "d", "e"] ("b") 2 ≠ ["c", "d"] := by
  exact ⟨by decide, by decide⟩

/-- Claim C3, counterexample: for `get_subs` over a store with a single
community (named "x") and the default limit 50, the page takes 1 item — fewer
than the limit — yet `has_next_page` is `true` (the code sets it to
`end_cursor != ""`), refuting "has_next_page iff taken = limit". -/
theorem get_subs_has_next_page_not_limit :
    ¬ ((getSubs [subX] none none).page_info.has_next_page = true
        ↔ (getSubs [subX] none none).edges.length = 50) := by
  decide

/-- Claim C3, amended: for the in-memory paginations (a post's comments, a
comment's children) `has_next_page` is true iff the number of window items
taken equals the limit (as i32, default 25); for the SQL paginations
(`get_subs`, `get_related_posts`/`get_home_posts`) it is true iff the last
edge's cursor is a nonempty string. -/
theorem has_next_page_characterization :
    (∀ (cands : List String) (store : List CommentRow) (limit : Option Int)
        (after : Option String),
      (commentPageOn cands store limit after).page_info.has_next_page = true
        ↔ wrap32 (Int.ofNat (commentsWindow cands (after.getD ("")) (limit.getD 25)).length)
            = limit.getD 25)
    ∧ (∀ (store : List Sub) (count : Option Int) (after : Option String),
      (getSubs store count after).page_info.has_next_page = true
        ↔ (((getSubs store count after).edges.map Edge.cursor).getLast?).getD ("") ≠ "")
    ∧ (∀ (rows : List PostRow) (count : Option Int) (after : Option String),
      match getRelatedPostsPage rows count after with
      | Except.ok page =>
          page.page_info.has_next_page = true
            ↔ ((page.edges.map Edge.cursor).getLast?).getD ("") ≠ ""
      | Except.error _ => True) := by
  refine ⟨?_, ?_, ?_⟩
  · intro cands store limit after
    simp [commentPageOn]
  · intro store count after
    simp only [getSubs, List.getLast?_map]
    exact decide_eq_true_iff
  · intro rows count after
    cases he : getRelatedPostsEdges rows (count.getD 25)
        ((after.map (fun v => (parseIntRust v).getD 0)).getD 0) with
    | error msg =>
      have hpage : getRelatedPostsPage rows count after = Except.error msg := by
        simp only [getRelatedPostsPage]
        rw [he, except_bind_error]
      rw [hpage]
      trivial
    | ok edges =>
      have hpage : getRelatedPostsPage rows count after
          = Except.ok {
              total_count := wrap32 (Int.ofNat rows.length)
              edges := edges
              page_info := {
                has_next_page := decide ((((edges.getLast?).map Edge.cursor).getD ("")) ≠ "")
                end_cursor := (((edges.getLast?).map Edge.cursor).getD ("")) } } := by
        simp only [getRelatedPostsPage]
        rw [he, except_bind_ok]
        rfl
      rw [hpage]
      simp only [List.getLast?_map]
      exact decide_eq_true_iff

/-- Witness for the amended claim C3 at a concrete input (`get_subs` over the
one-community store). -/
theorem has_next_page_characterization_witness :
    (getSubs [subX] none none).page_info.has_next_page = true
      ↔ ((((getSubs [subX] none none).edges.map Edge.cursor).getLast?).getD ("") ≠ "") :=
  has_next_page_characterization.2.1 [subX] none none

/-- Claim C4: `get_related_posts` cursors do not resume.  Over three stored
posts (pids 0, 1, 2, already in `posted` order) with limit 2, the first page's
edges carry cursors "0" and "1"; re-issuing the request with `after = "1"`
(the returned end cursor) makes the code run `OFFSET 1`, so the second page is
posts 1 and 2 — the post that bore the cursor is repeated, and its cursor is
reset to the page-local "0" — instead of resuming after it with post 2 alone. -/
theorem related_posts_cursor_repeats_item :
    ((getRelatedPostsPage [postRowOk 0, postRowOk 1, postRowOk 2] (some 2) none).map
        (fun pg => pg.edges.map (fun e => (e.node.pid, e.cursor))))
      = Except.ok [(0, "0"), (1, "1")]
    ∧ ((getRelatedPostsPage [postRowOk 0, postRowOk 1, postRowOk 2] (some 2) (some ("1"))).map
        (fun pg => pg.edges.map (fun e => (e.node.pid, e.cursor))))
      = Except.ok [(1, "0"), (2, "1")] :=
  ⟨rfl, rfl⟩

/-- Claim C5, counterexample: in `get_related_posts` a single row with an
unknown delete-status code aborts the whole page (the stream is collected into
`Result` and `?`-propagated), even though the sibling row decodes fine on its
own — the page being built is lost, contradicting "does not abort the page". -/
theorem related_posts_page_aborts_on_decode_failure :
    isOkE (getRelatedPostsPage [postRowOk 1, postRowBadDelete 2] none none) = false
    ∧ isOkE (decodePost (postRowOk 1)) = true :=
  ⟨rfl, rfl⟩

/-- Claim C5, amended: in the batch loader a decode failure is isolated to its
key: of 5 requested post keys where key 3's row carries the unknown
delete-status code 9, keys 1, 2, 4, 5 resolve successfully and key 3 alone
fails (with the loader's not-found error, since the undecodable row is dropped
before negative results are synthesized); but a decode failure does abort the
page built by `get_related_posts`/`get_home_posts`. -/
theorem post_batch_decode_isolation :
    ((postBatchLoad postStore5 [1, 2, 3, 4, 5]).map (fun kv => (kv.1, isOkE kv.2)))
      = [(1, true), (2, true), (4, true), (5, true), (3, false)]
    ∧ lookupA (postBatchLoad postStore5 [1, 2, 3, 4, 5]) 3
      = some (Except.error (postNotFoundMsg 3)) := by
  exact ⟨by decide, rfl⟩

/-- Claim C6, counterexample: soft-deleted content is not hidden "for posts and
comments alike".  A user-deleted comment's `content` resolver returns the
original content (it consults neither the status nor the viewer), and even for
a user-deleted post the `title` resolver returns the title unconditionally. -/
theorem deleted_comment_content_not_redacted :
    Comment.content_resolver commentDeleted = some ("secret")
    ∧ commentDeleted.status ≠ DeleteStatus.not
    ∧ Post.title_resolver postDeleted = some ("T")
    ∧ postDeleted.deleted ≠ DeleteStatus.not := by
  exact ⟨rfl, by decide, rfl, by decide⟩

/-- Claim C6, amended: only a post's *body* is redacted.  For a soft-deleted
post, the `content` resolver returns the stored body exactly when the
logged-in viewer is the author, holds `Role::Admin`, or holds a moderator role
(of any level) for the post's community, and `none` otherwise; an anonymous
viewer always gets `none`; a post's title is returned to every viewer; and a
comment's content is returned regardless of its delete status and viewer. -/
theorem deleted_content_visibility (p : Post) (c : Comment) (name id : String)
    (roles : List Role) (hdel : p.deleted ≠ DeleteStatus.not) :
    (Post.content_resolver p (UserState.loggedIn name id roles)
        = if id = p.uid.getD ("") ∨ Role.admin ∈ roles
              ∨ isModOf roles (p.sid.getD ("")) = true
          then p.content else none)
    ∧ Post.content_resolver p UserState.anonymous = none
    ∧ Comment.content_resolver c = c.content
    ∧ Post.title_resolver p = p.title := by
  refine ⟨?_, ?_, rfl, rfl⟩
  · have hcv := can_view_deleted_loggedIn_eq name id (p.sid.getD ("")) (p.uid.getD ("")) roles
    unfold Post.content_resolver
    rw [hcv]
    by_cases hP : id = p.uid.getD ("") ∨ Role.admin ∈ roles
        ∨ isModOf roles (p.sid.getD ("")) = true
    · rw [if_pos hP, if_pos]
      right
      rcases hP with h1 | h2 | h3
      · simp [h1]
      · simp [h2]
      · simp [h3]
    · rw [if_neg hP, if_neg]
      intro hcond
      rcases hcond with h1 | h2
      · exact hdel h1
      · apply hP
        simpa [Bool.or_eq_true, decide_eq_true_eq] using h2
  · simp [Post.content_resolver, UserState.can_view_deleted, hdel]

/-- Witness for the amended claim C6 at a concrete input: the user-deleted post
`postDeleted` (author "alice", community "s1") viewed by the logged-in
non-author "bob" with no roles. -/
theorem deleted_content_visibility_witness :
    (Post.content_resolver postDeleted (UserState.loggedIn ("n") ("bob") [])
        = if ("bob" : String) = postDeleted.uid.getD ("") ∨ Role.admin ∈ ([] : List Role)
              ∨ isModOf [] (postDeleted.sid.getD ("")) = true
          then postDeleted.content else none)
    ∧ Post.content_resolver postDeleted UserState.anonymous = none
    ∧ Comment.content_resolver commentDeleted = commentDeleted.content
    ∧ Post.title_resolver postDeleted = postDeleted.title :=
  deleted_content_visibility postDeleted commentDeleted ("n") ("bob") [] (by decide)

/-- Claim C7: per-key results of the post batch loader.  The result a batch
assigns to a requested key is a function of the store and that key alone
(`postResolveOne`), so sibling keys never affect each other; a key with no
store row resolves to the per-key not-found error without the store result
containing it; and a key whose unique store row decodes resolves to that
entity. -/
theorem post_loader_per_key_results (store : List PostRow) (ids : List Int) (j : Int)
    (hj : j ∈ ids) :
    lookupA (postBatchLoad store ids) j = some (postResolveOne store j)
    ∧ ((∀ r ∈ store, r.pid ≠ j) →
        lookupA (postBatchLoad store ids) j = some (Except.error (postNotFoundMsg j)))
    ∧ (∀ r p, r ∈ store → r.pid = j →
        store.filter (fun r2 => decide (r2.pid = j)) = [r] →
        decodePost r = Except.ok p →
        lookupA (postBatchLoad store ids) j = some (Except.ok p)) := by
  have hchar : lookupA (postBatchLoad store ids) j = some (postResolveOne store j) :=
    batchLoad_lookup decodePost PostRow.pid Post.pid postNotFoundMsg decodePost_pid
      store ids j hj
  refine ⟨hchar, ?_, ?_⟩
  · intro habs
    rw [hchar]
    have hfil : store.filter (fun r => decide (PostRow.pid r = j)) = [] := by
      rw [List.filter_eq_nil_iff]
      intro r hr
      simp [habs r hr]
    unfold postResolveOne resolveOne
    rw [hfil]
    rfl
  · intro r p _hr _hpid huniq hdec
    rw [hchar]
    unfold postResolveOne resolveOne
    rw [huniq]
    simp [List.filterMap_cons, hdec, toOption_ok]

/-- Witness for claim C7 at a concrete input: requesting keys 1 and 2 against a
store holding only post 2; key 1 is synthesized as not-found. -/
theorem post_loader_per_key_results_witness :
    lookupA (postBatchLoad [postRowOk 2] [1, 2]) 1
      = some (Except.error (postNotFoundMsg 1)) :=
  (post_loader_per_key_results [postRowOk 2] [1, 2] 1 (by decide)).2.1 (by decide)

/-- Claim C8: the private fields `email`, `resets` and `crypto` of a user fail
with the Unauthorized error for the anonymous principal and for any logged-in
principal that is neither the user nor a holder of `Role::Admin`; they resolve
successfully for the owning principal and for an admin. -/
theorem private_field_gating (u : User) (name id : String) (roles : List Role) :
    (User.email_resolver u UserState.anonymous = Except.error ("Not Authorized")
      ∧ User.resets_resolver u UserState.anonymous = Except.error ("Not Authorized")
      ∧ User.crypto_resolver u UserState.anonymous = Except.error ("Not Authorized"))
    ∧ ((id = u.uid ∨ Role.admin ∈ roles) →
        (User.email_resolver u (UserState.loggedIn name id roles) = Except.ok u.email
          ∧ User.resets_resolver u (UserState.loggedIn name id roles) = Except.ok u.resets
          ∧ User.crypto_resolver u (UserState.loggedIn name id roles) = Except.ok u.crypto))
    ∧ (id ≠ u.uid → Role.admin ∉ roles →
        (User.email_resolver u (UserState.loggedIn name id roles)
            = Except.error ("Not Authorized")
          ∧ User.resets_resolver u (UserState.loggedIn name id roles)
            = Except.error ("Not Authorized")
          ∧ User.crypto_resolver u (UserState.loggedIn name id roles)
            = Except.error ("Not Authorized"))) := by
  refine ⟨⟨rfl, rfl, rfl⟩, ?_, ?_⟩
  · intro h
    have hok : UserState.private_user_data (UserState.loggedIn name id roles) u.uid
        = Except.ok () := by
      rcases h with h1 | h2
      · simp [UserState.private_user_data, h1]
      · by_cases hid : id = u.uid <;> simp [UserState.private_user_data, hid, h2]
    refine ⟨?_, ?_, ?_⟩ <;>
      simp [User.email_resolver, User.resets_resolver, User.crypto_resolver, hok, Except.map]
  · intro h1 h2
    have herr : UserState.private_user_data (UserState.loggedIn name id roles) u.uid
        = Except.error ("Not Authorized") := by
      simp [UserState.private_user_data, h1, h2]
    refine ⟨?_, ?_, ?_⟩ <;>
      simp [User.email_resolver, User.resets_resolver, User.crypto_resolver, herr, Except.map]

/-- Witness for claim C8 at a concrete input: the owner (id "u1") reads their
own private fields successfully. -/
theorem private_field_gating_witness :
    User.email_resolver userW (UserState.loggedIn ("Alice") ("u1") []) = Except.ok userW.email
    ∧ User.resets_resolver userW (UserState.loggedIn ("Alice") ("u1") []) = Except.ok userW.resets
    ∧ User.crypto_resolver userW (UserState.loggedIn ("Alice") ("u1") []) = Except.ok userW.crypto :=
  (private_field_gating userW ("Alice") ("u1") []).2.1 (Or.inl rfl)

/-- Claim C9: the `Comment::parent` resolver is `unimplemented!()`: for every
comment it panics, and it never produces a parent comment nor a field-level
error. -/
theorem comment_parent_unimplemented (c : Comment) :
    Comment.parent_resolver c = ResolveOutcome.crashes
    ∧ (∀ v : Comment, Comment.parent_resolver c ≠ ResolveOutcome.ok v)
    ∧ (∀ msg : String, Comment.parent_resolver c ≠ ResolveOutcome.fieldError msg) := by
  refine ⟨rfl, fun v h => ?_, fun msg h => ?_⟩ <;> simp [Comment.parent_resolver] at h

/-- Witness for claim C9 at a concrete comment. -/
theorem comment_parent_unimplemented_witness :
    Comment.parent_resolver commentDeleted = ResolveOutcome.crashes :=
  (comment_parent_unimplemented commentDeleted).1

/-- Claim C10: `can_view_deleted` ignores the moderator's power level: a
logged-in principal holding `Role::Mod(sub, lvl)` for the content's community
passes for every level, while one whose moderator roles are all for other
communities fails unless they are the author or hold `Role::Admin`. -/
theorem can_view_deleted_ignores_level (name id sub_id author_id : String)
    (roles : List Role) :
    (∀ lvl : Level, Role.mod sub_id lvl ∈ roles →
        UserState.can_view_deleted (UserState.loggedIn name id roles) sub_id author_id = true)
    ∧ (id ≠ author_id → Role.admin ∉ roles →
        (∀ lvl : Level, Role.mod sub_id lvl ∉ roles) →
        UserState.can_view_deleted (UserState.loggedIn name id roles) sub_id author_id
          = false) := by
  constructor
  · intro lvl hmem
    by_cases hid : id = author_id
    · simp [UserState.can_view_deleted, hid]
    · simp only [UserState.can_view_deleted, if_neg hid]
      rw [List.any_eq_true]
      exact ⟨Role.mod sub_id lvl, hmem, by simp⟩
  · intro hid hadmin hmod
    rw [can_view_deleted_loggedIn_eq]
    simp only [hid, decide_eq_false_iff_not, ne_eq, not_false_eq_true, decide_eq_true_eq,
      Bool.or_eq_false_iff]
    refine ⟨by simp [hid], by simp [hadmin], ?_⟩
    rw [isModOf, List.any_eq_false]
    intro role hr
    cases role with
    | admin => simp
    | mod s lvl =>
      simp only [decide_eq_true_eq]
      intro hs
      exact hmod lvl (hs ▸ hr)

/-- Witness for claim C10 at concrete inputs: a janitor of "s1" passes for
"s1", while an owner of "s2" (not author, not admin) fails for "s1". -/
theorem can_view_deleted_ignores_level_witness :
    UserState.can_view_deleted
        (UserState.loggedIn ("n") ("u2") [Role.mod ("s1") Level.janitor]) ("s1") ("author")
      = true
    ∧ UserState.can_view_deleted
        (UserState.loggedIn ("n") ("u2") [Role.mod ("s2") Level.owner]) ("s1") ("author")
      = false :=
  ⟨(can_view_deleted_ignores_level ("n") ("u2") ("s1") ("author")
      [Role.mod ("s1") Level.janitor]).1 Level.janitor (by decide),
   (can_view_deleted_ignores_level ("n") ("u2") ("s1") ("author")
      [Role.mod ("s2") Level.owner]).2 (by decide) (by decide)
      (by intro lvl h; cases lvl <;> simp_all)⟩

end ThroatQL
